import Mathlib

/-!
Verification of the focus plugin scripts (transcript recovery, budget
allocation, strike escalation, constraint gating, operation-log pruning)
against a shallow embedding of the Python sources in
`src/plugins/focus/scripts` and `src/scripts`.

File contents are modelled as `List Char` (one element per decoded
character), JSON objects relevant to each claim as explicit structures,
and every fallible operation as an `Option`.
-/

namespace Focus

/-! ## reverse_readline (recover_context.py lines 80-107)

The generator reads the file backwards in blocks of `buf_size` bytes,
splits the accumulated buffer on the newline byte, keeps the first
(incomplete) piece as the new buffer, and yields the remaining pieces in
reverse order, skipping empty ones; after the loop the leftover buffer is
yielded if nonempty.  Each yielded line is decoded and stripped of
trailing carriage returns. -/

/-- Splitting a character list at every newline, mirroring the Python
`bytes.split` on the newline byte: the result always has at least one
piece, and pieces do not contain newlines. -/
def splitNl : List Char → List (List Char)
  | [] => [[]]
  | c :: rest =>
    if c = '\n' then [] :: splitNl rest
    else
      match splitNl rest with
      | [] => [[c]]
      | l :: ls => (c :: l) :: ls

theorem splitNl_ne_nil (l : List Char) : splitNl l ≠ [] := by
  cases l with
  | nil => simp [splitNl]
  | cons c rest =>
    simp only [splitNl]
    split
    · simp
    · split <;> simp

theorem splitNl_cons_newline (l : List Char) :
    splitNl ('\n' :: l) = [] :: splitNl l := by
  simp [splitNl]

theorem splitNl_cons_of_ne (c : Char) (l : List Char) (h : c ≠ '\n') :
    splitNl (c :: l) = (c :: (splitNl l).headD []) :: (splitNl l).tail := by
  simp only [splitNl, if_neg h]
  rcases hsp : splitNl l with _ | ⟨x, xs⟩
  · exact absurd hsp (splitNl_ne_nil l)
  · simp

theorem splitNl_of_no_newline (l : List Char) (h : '\n' ∉ l) : splitNl l = [l] := by
  induction l with
  | nil => simp [splitNl]
  | cons c rest ih =>
    have hc : c ≠ '\n' := fun hc => h (hc ▸ List.mem_cons_self c rest)
    have hrest : '\n' ∉ rest := fun hr => h (List.mem_cons_of_mem c hr)
    rw [splitNl_cons_of_ne c rest hc, ih hrest]
    simp

theorem newline_not_mem_headD (l : List Char) : '\n' ∉ (splitNl l).headD [] := by
  induction l with
  | nil => simp [splitNl]
  | cons c rest ih =>
    by_cases hc : c = '\n'
    · subst hc; rw [splitNl_cons_newline]; simp
    · rw [splitNl_cons_of_ne c rest hc]
      simp only [List.headD_cons, List.mem_cons, not_or]
      exact ⟨fun he => hc he.symm, ih⟩

theorem headD_cons_tail {α : Type} (l : List α) (d : α) (h : l ≠ []) :
    l.headD d :: l.tail = l := by
  cases l with
  | nil => exact absurd rfl h
  | cons x xs => rfl

theorem getLastD_of_ne_nil {α : Type} (l : List α) (d e : α) (h : l ≠ []) :
    l.getLastD d = l.getLastD e := by
  cases l with
  | nil => exact absurd rfl h
  | cons x xs => rw [List.getLastD_cons, List.getLastD_cons]

theorem splitNl_append (a b : List Char) :
    splitNl (a ++ b) =
      (splitNl a).dropLast ++
        ((splitNl a).getLastD [] ++ (splitNl b).headD []) :: (splitNl b).tail := by
  induction a with
  | nil =>
    have hb := splitNl_ne_nil b
    show splitNl b = _
    rw [show splitNl ([] : List Char) = [[]] from rfl]
    simp only [List.dropLast_single, List.getLastD_cons, List.getLastD_nil,
      List.nil_append]
    exact (headD_cons_tail _ _ hb).symm
  | cons c a ih =>
    have ha := splitNl_ne_nil a
    by_cases hc : c = '\n'
    · subst hc
      rw [List.cons_append, splitNl_cons_newline, splitNl_cons_newline, ih]
      rcases hsp : splitNl a with _ | ⟨x, xs⟩
      · exact absurd hsp ha
      · cases xs with
        | nil => simp [List.getLastD_cons]
        | cons y ys => simp [List.getLastD_cons]
    · rw [List.cons_append, splitNl_cons_of_ne c _ hc, splitNl_cons_of_ne c _ hc, ih]
      rcases hsp : splitNl a with _ | ⟨x, xs⟩
      · exact absurd hsp ha
      · cases xs with
        | nil => simp [List.getLastD_cons]
        | cons y ys =>
          simp only [List.headD_cons, List.tail_cons, List.dropLast_cons₂,
            List.getLastD_cons, List.cons_append]

/-- Stripping every trailing carriage return, mirroring the Python
string method rstrip applied with the carriage-return character. -/
def rstripCR (l : List Char) : List Char :=
  (l.reverse.dropWhile (fun c => c = '\r')).reverse

/-- The blocks read by the reverse loop, in processing order (last block
of the file first).  Each iteration reads min bufSize remaining bytes
ending at the previous seek position.  A zero bufSize makes the Python
loop diverge; the model returns the empty list in that case and every
theorem assumes a positive bufSize. -/
def revChunksGo : Nat → List Char → Nat → List (List Char)
  | 0, _, _ => []
  | fuel + 1, content, bufSize =>
    if content = [] ∨ bufSize = 0 then []
    else
      let readSize := min bufSize content.length
      let k := content.length - readSize
      content.drop k :: revChunksGo fuel (content.take k) bufSize

/-- Entry point with enough fuel for the whole file: each loop iteration
consumes at least one character, so the file length bounds the number of
iterations. -/
def revChunks (content : List Char) (bufSize : Nat) : List (List Char) :=
  revChunksGo content.length content bufSize

/-- One pass of the reverse_readline while-loop over the remaining
blocks, carrying the incomplete first line as the buffer: each block is
prepended to the buffer, the result is split on newlines, the first
piece becomes the new buffer and the other pieces are yielded in reverse
order with empty ones skipped; the final buffer is yielded if nonempty. -/
def revReadAux : List (List Char) → List Char → List (List Char)
  | [], buffer => if buffer = [] then [] else [buffer]
  | chunk :: rest, buffer =>
    let lines := splitNl (chunk ++ buffer)
    (lines.tail.reverse.filter (fun l => !l.isEmpty)) ++ revReadAux rest (lines.headD [])

/-- Model of reverse_readline (recover_context.py lines 80-107), before
decoding: the raw yielded lines in yield order. -/
def reverse_readline_raw (content : List Char) (bufSize : Nat) : List (List Char) :=
  revReadAux (revChunks content bufSize) []

/-- Model of reverse_readline including the per-line decode and
carriage-return strip. -/
def reverse_readline (content : List Char) (bufSize : Nat) : List String :=
  (reverse_readline_raw content bufSize).map (fun l => String.mk (rstripCR l))

/-- The naive reference implementation the claim compares against: split
the whole file on newlines, drop empty lines, reverse, strip trailing
carriage returns. -/
def naiveReverseLines (content : List Char) : List String :=
  ((((splitNl content).filter (fun l => !l.isEmpty)).reverse).map
    (fun l => String.mk (rstripCR l)))

theorem revReadAux_eq (chunks : List (List Char)) (buffer : List Char)
    (hb : '\n' ∉ buffer) :
    revReadAux chunks buffer =
      ((splitNl ((chunks.reverse).flatten ++ buffer)).filter
        (fun l => !l.isEmpty)).reverse := by
  induction chunks generalizing buffer with
  | nil =>
    rw [splitNl_of_no_newline _ (by simpa using hb)]
    by_cases h : buffer = [] <;> simp [revReadAux, h]
  | cons c cs ih =>
    have hH := newline_not_mem_headD (c ++ buffer)
    rw [show revReadAux (c :: cs) buffer =
        ((splitNl (c ++ buffer)).tail.reverse.filter (fun l => !l.isEmpty)) ++
          revReadAux cs ((splitNl (c ++ buffer)).headD []) from rfl,
      ih _ hH]
    have hfull : ((c :: cs).reverse).flatten ++ buffer =
        (cs.reverse).flatten ++ (c ++ buffer) := by
      simp [List.reverse_cons, List.flatten_append, List.append_assoc]
    rw [hfull, splitNl_append (cs.reverse).flatten (c ++ buffer),
      splitNl_append (cs.reverse).flatten ((splitNl (c ++ buffer)).headD []),
      splitNl_of_no_newline _ hH]
    simp only [List.headD_cons, List.tail_cons, List.filter_append, List.filter_cons,
      List.reverse_append, List.filter_reverse, List.append_assoc]
    rcases hcb : splitNl (c ++ buffer) with _ | ⟨x, xs⟩
    · exact absurd hcb (splitNl_ne_nil (c ++ buffer))
    · simp only [List.headD_cons, List.tail_cons]
      split <;> simp

theorem revChunksGo_flatten (n : Nat) :
    ∀ content : List Char, content.length ≤ n → ∀ bufSize : Nat, bufSize ≠ 0 →
      ((revChunksGo n content bufSize).reverse).flatten = content := by
  induction n with
  | zero =>
    intro content hlen bufSize hbuf
    have : content = [] := List.length_eq_zero.mp (Nat.le_zero.mp hlen)
    subst this
    simp [revChunksGo]
  | succ n ih =>
    intro content hlen bufSize hbuf
    rw [revChunksGo]
    by_cases h : content = [] ∨ bufSize = 0
    · rcases h with h | h
      · subst h; simp
      · exact absurd h hbuf
    · simp only [if_neg h]
      push_neg at h
      have hc : 1 ≤ content.length := by
        cases hx : content with
        | nil => exact absurd hx h.1
        | cons a l => simp
      have h1 : 1 ≤ min bufSize content.length :=
        le_min (Nat.one_le_iff_ne_zero.mpr hbuf) hc
      have hlt : (content.take (content.length - min bufSize content.length)).length ≤ n := by
        simp only [List.length_take]
        omega
      rw [List.reverse_cons, List.flatten_append, ih _ hlt bufSize hbuf]
      simp

/-- With fuel at least the length of the remaining content, extra fuel
does not change the chunking. -/
theorem revChunksGo_fuel (n m : Nat) :
    ∀ content : List Char, content.length ≤ n → content.length ≤ m → ∀ bufSize : Nat,
      revChunksGo n content bufSize = revChunksGo m content bufSize := by
  induction n generalizing m with
  | zero =>
    intro content hlen _ bufSize
    have : content = [] := List.length_eq_zero.mp (Nat.le_zero.mp hlen)
    subst this
    cases m <;> simp [revChunksGo]
  | succ n ih =>
    intro content hlen hlenm bufSize
    cases m with
    | zero =>
      have : content = [] := List.length_eq_zero.mp (Nat.le_zero.mp hlenm)
      subst this
      simp [revChunksGo]
    | succ m =>
      rw [revChunksGo, revChunksGo]
      by_cases h : content = [] ∨ bufSize = 0
      · simp [h]
      · simp only [if_neg h]
        push_neg at h
        have hc : 1 ≤ content.length := by
          cases hx : content with
          | nil => exact absurd hx h.1
          | cons a l => simp
        have h1 : 1 ≤ min bufSize content.length :=
          le_min (Nat.one_le_iff_ne_zero.mpr h.2) hc
        have hlt : (content.take (content.length - min bufSize content.length)).length ≤ n := by
          simp only [List.length_take]
          omega
        have hltm : (content.take (content.length - min bufSize content.length)).length ≤ m := by
          simp only [List.length_take]
          omega
        rw [ih m _ hlt hltm bufSize]

theorem revChunks_flatten (content : List Char) (bufSize : Nat) (hbuf : bufSize ≠ 0) :
    ((revChunks content bufSize).reverse).flatten = content :=
  revChunksGo_flatten content.length content (le_refl _) bufSize hbuf

/-- C10 core equivalence on raw lines. -/
theorem reverse_readline_raw_eq (content : List Char) (bufSize : Nat)
    (hbuf : 0 < bufSize) :
    reverse_readline_raw content bufSize =
      ((splitNl content).filter (fun l => !l.isEmpty)).reverse := by
  rw [reverse_readline_raw, revReadAux_eq _ [] (by simp),
    List.append_nil, revChunks_flatten content bufSize (Nat.pos_iff_ne_zero.mp hbuf)]

/-! ## filter_session_from_end (recover_context.py lines 265-319)

The extraction of one entry from one JSONL line
(extract_valuable_content, which parses JSON and applies the configured
noise filters and the truncate flag) is kept as a parameter
`extract : String → Option Entry`; the claims below concern only the
budget walk around it, which is embedded literally. -/

/-- Wall-clock timestamp carried by a transcript entry. -/
structure Tstamp where
  y : Nat
  mo : Nat
  d : Nat
  h : Nat
  mi : Nat
deriving DecidableEq

/-- Zero-padded two-digit rendering used by strftime. -/
def pad2 (n : Nat) : String := if n < 10 then "0" ++ toString n else toString n

/-- strftime for the header date, pattern year-month-day hour:minute. -/
def fmtDateHM (t : Tstamp) : String :=
  toString t.y ++ "-" ++ pad2 t.mo ++ "-" ++ pad2 t.d ++ " " ++ pad2 t.h ++ ":" ++ pad2 t.mi

/-- strftime for the header end time, pattern hour:minute. -/
def fmtHM (t : Tstamp) : String := pad2 t.h ++ ":" ++ pad2 t.mi

/-- One extracted conversational turn, as returned by
extract_valuable_content: time, role tag, content and the preformatted
display line. -/
structure Entry where
  time : Option Tstamp
  role : String
  content : String
  formatted : String
deriving DecidableEq

instance : Inhabited Entry := ⟨⟨none, "", "", ""⟩⟩

/-- Cost charged against the budget by a list of retained entries: each
retained turn costs the length of its formatted line plus 2. -/
def sumCosts (es : List Entry) : Int :=
  (es.map (fun e => (e.formatted.length : Int) + 2)).sum

/-- The for-loop of filter_session_from_end over the reversed lines:
entries too large for the remaining budget are skipped (with the skip
counter incremented) and the walk continues; a retained entry consumes
its cost.  Returns the retained entries in processing order (newest
first), the final remaining budget and the skip count. -/
def filterEntriesLoop (extract : String → Option Entry) :
    List String → Int → Nat → List Entry × Int × Nat
  | [], remaining, skipped => ([], remaining, skipped)
  | line :: rest, remaining, skipped =>
    match extract line with
    | none => filterEntriesLoop extract rest remaining skipped
    | some e =>
      let entryLen : Int := (e.formatted.length : Int) + 2
      if entryLen > remaining then
        filterEntriesLoop extract rest remaining (skipped + 1)
      else if remaining ≤ 0 then
        ([], remaining, skipped)
      else
        let r := filterEntriesLoop extract rest (remaining - entryLen) skipped
        (e :: r.1, r.2.1, r.2.2)

/-- Report body built from the chronological entries: header line, blank
line, then each formatted entry followed by a blank line. -/
def sessionReport (entries : List Entry) : String :=
  let header :=
    match entries.headD default |>.time, (entries.getLastD default).time with
    | some ft, some lt =>
        "=== SESSION RECOVERY (" ++ fmtDateHM ft ++ " - " ++ fmtHM lt ++ ") ==="
    | _, _ => "=== SESSION RECOVERY ==="
  String.intercalate "\n"
    ([header, ""] ++ entries.foldr (fun e acc => e.formatted :: "" :: acc) [])

/-- Model of filter_session_from_end: `transcript` is none when the
transcript path is unset or the file does not exist, otherwise it holds
the file content.  Returns (content, chars used, entries skipped). -/
def filter_session_from_end (transcript : Option (List Char)) (bufSize : Nat)
    (extract : String → Option Entry) (char_budget : Int) : String × Int × Nat :=
  match transcript with
  | none => ("No transcript found.", 0, 0)
  | some content =>
    let lines := reverse_readline content bufSize
    let r := filterEntriesLoop extract lines (char_budget - 100) 0
    let entries := r.1.reverse
    if entries.isEmpty then
      ("No conversational content found in transcript.", 0, 0)
    else
      (sessionReport entries, char_budget - r.2.1, r.2.2)

theorem filterEntriesLoop_spec (extract : String → Option Entry) :
    ∀ (lines : List String) (rem : Int) (sk : Nat),
      (filterEntriesLoop extract lines rem sk).2.1 =
          rem - sumCosts (filterEntriesLoop extract lines rem sk).1 ∧
      ((filterEntriesLoop extract lines rem sk).1 ≠ [] →
          0 ≤ (filterEntriesLoop extract lines rem sk).2.1) ∧
      (filterEntriesLoop extract lines rem sk).2.1 ≤ rem ∧
      (filterEntriesLoop extract lines rem sk).1.length +
          (filterEntriesLoop extract lines rem sk).2.2 =
        (lines.filterMap extract).length + sk ∧
      List.Sublist (filterEntriesLoop extract lines rem sk).1 (lines.filterMap extract) := by
  intro lines
  induction lines with
  | nil =>
    intro rem sk
    simp [filterEntriesLoop, sumCosts]
  | cons line rest ih =>
    intro rem sk
    rcases hx : extract line with _ | e
    · have heq : filterEntriesLoop extract (line :: rest) rem sk =
          filterEntriesLoop extract rest rem sk := by
        simp [filterEntriesLoop, hx]
      have hfm : (line :: rest).filterMap extract = rest.filterMap extract := by
        simp [List.filterMap_cons, hx]
      rw [heq, hfm]
      exact ih rem sk
    · have hfm : (line :: rest).filterMap extract = e :: rest.filterMap extract := by
        simp [List.filterMap_cons, hx]
      have hel : (2 : Int) ≤ (e.formatted.length : Int) + 2 := by
        have : (0 : Int) ≤ (e.formatted.length : Int) := Int.ofNat_nonneg _
        omega
      by_cases hbig : ((e.formatted.length : Int) + 2) > rem
      · have heq : filterEntriesLoop extract (line :: rest) rem sk =
            filterEntriesLoop extract rest rem (sk + 1) := by
          simp only [filterEntriesLoop, hx, if_pos hbig]
        obtain ⟨a, b, c, d, f⟩ := ih rem (sk + 1)
        rw [heq, hfm]
        refine ⟨a, b, c, ?_, f.cons e⟩
        simp only [List.length_cons]
        omega
      · have hpos : ¬ rem ≤ 0 := by omega
        have heq : filterEntriesLoop extract (line :: rest) rem sk =
            (e :: (filterEntriesLoop extract rest (rem - ((e.formatted.length : Int) + 2)) sk).1,
             (filterEntriesLoop extract rest (rem - ((e.formatted.length : Int) + 2)) sk).2.1,
             (filterEntriesLoop extract rest (rem - ((e.formatted.length : Int) + 2)) sk).2.2) := by
          simp only [filterEntriesLoop, hx, if_neg hbig, if_neg hpos]
        obtain ⟨a, b, c, d, f⟩ := ih (rem - ((e.formatted.length : Int) + 2)) sk
        rw [heq, hfm]
        dsimp only
        refine ⟨?_, ?_, ?_, ?_, ?_⟩
        · simp only [sumCosts, List.map_cons, List.sum_cons]
          simp only [sumCosts] at a
          omega
        · intro _
          rcases hnil : (filterEntriesLoop extract rest
              (rem - ((e.formatted.length : Int) + 2)) sk).1 with _ | ⟨z, zs⟩
          · rw [hnil] at a
            simp only [sumCosts, List.map_nil, List.sum_nil] at a
            omega
          · have := b (by rw [hnil]; simp)
            omega
        · omega
        · simp only [List.length_cons]
          omega
        · exact f.cons₂ e

/-- Used charge is never negative. -/
theorem filter_session_used_nonneg (t : Option (List Char)) (bufSize : Nat)
    (extract : String → Option Entry) (B : Int) :
    0 ≤ (filter_session_from_end t bufSize extract B).2.1 := by
  rcases t with _ | content
  · simp [filter_session_from_end]
  · simp only [filter_session_from_end]
    obtain ⟨a, b, c, d, f⟩ :=
      filterEntriesLoop_spec extract (reverse_readline content bufSize) (B - 100) 0
    split
    · simp
    · rename_i hne
      have hb := b (by intro hnil; rw [hnil] at hne; simp at hne)
      simp only
      omega

/-- Used charge never exceeds a nonnegative budget. -/
theorem filter_session_used_le (t : Option (List Char)) (bufSize : Nat)
    (extract : String → Option Entry) (B : Int) (hB : 0 ≤ B) :
    (filter_session_from_end t bufSize extract B).2.1 ≤ B := by
  rcases t with _ | content
  · simpa [filter_session_from_end] using hB
  · simp only [filter_session_from_end]
    obtain ⟨a, b, c, d, f⟩ :=
      filterEntriesLoop_spec extract (reverse_readline content bufSize) (B - 100) 0
    split
    · simpa using hB
    · rename_i hne
      have hb := b (by intro hnil; rw [hnil] at hne; simp at hne)
      simp only
      omega

/-- C10: the block-based reverse reader yields exactly the non-empty
newline-separated lines of the file in reverse order, each with trailing
carriage returns stripped and empty lines dropped, for every positive
buffer size — equivalent to the naive read-all, drop-empty, reverse
implementation, independently of the buffer size. -/
theorem C10_reverse_readline_equiv (content : List Char) (bufSize : Nat)
    (hbuf : 0 < bufSize) :
    reverse_readline content bufSize = naiveReverseLines content := by
  rw [reverse_readline, naiveReverseLines,
    reverse_readline_raw_eq content bufSize hbuf]

theorem C10_reverse_readline_equiv_witness :
    reverse_readline ("alpha\r\nbeta\n\ngamma".toList) 4 =
      naiveReverseLines ("alpha\r\nbeta\n\ngamma".toList) :=
  C10_reverse_readline_equiv ("alpha\r\nbeta\n\ngamma".toList) 4 (by decide)

/-- Sample extraction function used by concrete witnesses. -/
def sampleExtract : String → Option Entry := fun s =>
  if s = "u" then some ⟨none, "USER", "hi", "[??:??] USER: hi"⟩ else none

/-- C1: for every transcript content and nonnegative character budget B,
filter_session_from_end returns used with 0 ≤ used ≤ B; the walk runs
over the lines newest to oldest with the budget seeded at B minus the
100-character header reserve, each retained turn costing the length of
its formatted line plus 2; when at least one turn is retained, used is
exactly the reserve plus the retained costs and the skip count is the
loop skip count; an oversized turn is skipped rather than stopping the
walk, so every extracted turn is either retained or counted as skipped;
and the retained turns, reversed back to chronological order, form a
subsequence of the chronological turn sequence. -/
theorem C1_filter_session_budget (content : List Char) (bufSize : Nat)
    (extract : String → Option Entry) (B : Int) (hB : 0 ≤ B) :
    (filter_session_from_end (some content) bufSize extract B).2.1 ≤ B ∧
    0 ≤ (filter_session_from_end (some content) bufSize extract B).2.1 ∧
    (filterEntriesLoop extract (reverse_readline content bufSize) (B - 100) 0).2.1 =
      (B - 100) -
        sumCosts (filterEntriesLoop extract (reverse_readline content bufSize) (B - 100) 0).1 ∧
    ((filterEntriesLoop extract (reverse_readline content bufSize) (B - 100) 0).1 ≠ [] →
      (filter_session_from_end (some content) bufSize extract B).2.1 =
        100 + sumCosts
          (filterEntriesLoop extract (reverse_readline content bufSize) (B - 100) 0).1 ∧
      (filter_session_from_end (some content) bufSize extract B).2.2 =
        (filterEntriesLoop extract (reverse_readline content bufSize) (B - 100) 0).2.2) ∧
    (filterEntriesLoop extract (reverse_readline content bufSize) (B - 100) 0).1.length +
        (filterEntriesLoop extract (reverse_readline content bufSize) (B - 100) 0).2.2 =
      ((reverse_readline content bufSize).filterMap extract).length ∧
    List.Sublist
      (filterEntriesLoop extract (reverse_readline content bufSize) (B - 100) 0).1.reverse
      (((reverse_readline content bufSize).filterMap extract).reverse) := by
  obtain ⟨a, b, c, d, f⟩ :=
    filterEntriesLoop_spec extract (reverse_readline content bufSize) (B - 100) 0
  refine ⟨filter_session_used_le _ _ _ _ hB, filter_session_used_nonneg _ _ _ _,
    a, ?_, by omega, f.reverse⟩
  intro hne
  have hout : filter_session_from_end (some content) bufSize extract B =
      (sessionReport (filterEntriesLoop extract (reverse_readline content bufSize)
          (B - 100) 0).1.reverse,
        B - (filterEntriesLoop extract (reverse_readline content bufSize) (B - 100) 0).2.1,
        (filterEntriesLoop extract (reverse_readline content bufSize) (B - 100) 0).2.2) := by
    simp only [filter_session_from_end]
    rw [if_neg (by simpa using hne)]
  rw [hout]
  dsimp only
  constructor
  · omega
  · rfl

theorem C1_filter_session_budget_witness :
    (filter_session_from_end (some ("u\nu".toList)) 8192 sampleExtract 300).2.1 ≤ 300 :=
  (C1_filter_session_budget ("u\nu".toList) 8192 sampleExtract 300 (by decide)).1

/-! ## dual_source_recovery budget allocation (recover_context.py lines 625-676) -/

/-- Python int() applied to a rational: truncation toward zero. -/
def pyInt (x : ℚ) : Int := if 0 ≤ x then ⌊x⌋ else ⌈x⌉

/-- Result record collected for one processed session, mirroring the
tuple appended to session_results. -/
structure SessResult where
  sid : String
  content : String
  used : Int
  budgetLimit : Int
  skipped : Nat
  remainingAfter : Int
deriving DecidableEq

/-- The per-session allocation loop: stop when the remaining budget is
exhausted; otherwise allocate the whole remaining budget when it is at
or below the minimum session budget and remaining times the decay factor
otherwise, extract under that limit, and subtract the actually used
amount from the remaining budget. -/
def allocLoop (bufSize : Nat) (extract : String → Option Entry) (minB : Int) (q : ℚ) :
    List (String × List Char) → Int → List SessResult
  | [], _ => []
  | (sid, t) :: rest, remaining =>
    if remaining ≤ 0 then []
    else
      let budgetLimit : Int := if remaining ≤ minB then remaining
        else pyInt ((remaining : ℚ) * q)
      let r := filter_session_from_end (some t) bufSize extract budgetLimit
      let remaining2 := remaining - r.2.1
      ⟨sid, r.1, r.2.1, budgetLimit, r.2.2, remaining2⟩ ::
        allocLoop bufSize extract minB q rest remaining2

/-- Model of the session-allocation part of dual_source_recovery: the
session transcripts come oldest first, are reversed to process newest
first, the current session is dropped when a current session id is
known, and the loop runs with the full character budget. -/
def dual_source_alloc (bufSize : Nat) (extract : String → Option Entry)
    (minB : Int) (q : ℚ) (sessionTranscripts : List (String × List Char))
    (currentSid : String) (B : Int) : List SessResult :=
  let revd := sessionTranscripts.reverse
  let filtered := if currentSid ≠ "" then revd.filter (fun p => p.1 != currentSid) else revd
  allocLoop bufSize extract minB q filtered B

/-- The display pass reverses the allocation-order results back to
chronological (oldest-first) order. -/
def dual_source_display (bufSize : Nat) (extract : String → Option Entry)
    (minB : Int) (q : ℚ) (sessionTranscripts : List (String × List Char))
    (currentSid : String) (B : Int) : List SessResult :=
  (dual_source_alloc bufSize extract minB q sessionTranscripts currentSid B).reverse

theorem allocLoop_spec (bufSize : Nat) (extract : String → Option Entry)
    (minB : Int) (q : ℚ) (hq0 : 0 ≤ q) (hq1 : q ≤ 1) :
    ∀ (ts : List (String × List Char)) (remaining : Int), 0 ≤ remaining →
      ((allocLoop bufSize extract minB q ts remaining).map (fun r => r.used)).sum ≤
        remaining ∧
      (∀ r ∈ allocLoop bufSize extract minB q ts remaining,
        0 ≤ r.used ∧ r.used ≤ r.budgetLimit ∧ r.remainingAfter = (r.remainingAfter + r.used) - r.used ∧
        r.budgetLimit = (if r.remainingAfter + r.used ≤ minB then r.remainingAfter + r.used
          else pyInt (((r.remainingAfter + r.used : Int) : ℚ) * q)) ∧
        r.sid ∈ ts.map Prod.fst) ∧
      (∃ rest2, ts.map Prod.fst =
        (allocLoop bufSize extract minB q ts remaining).map (fun r => r.sid) ++ rest2) := by
  intro ts
  induction ts with
  | nil =>
    intro remaining hrem
    exact ⟨by simpa [allocLoop] using hrem, by simp [allocLoop], ⟨[], by simp [allocLoop]⟩⟩
  | cons p rest ih =>
    intro remaining hrem
    obtain ⟨sid, t⟩ := p
    by_cases hstop : remaining ≤ 0
    · have hnil : allocLoop bufSize extract minB q ((sid, t) :: rest) remaining = [] := by
        rw [allocLoop, if_pos hstop]
      refine ⟨?_, ?_, ⟨((sid, t) :: rest).map Prod.fst, ?_⟩⟩
      · rw [hnil]; simpa using hrem
      · rw [hnil]; simp
      · rw [hnil]; simp
    · have hrempos : 0 < remaining := by omega
      set budgetLimit : Int := if remaining ≤ minB then remaining
        else pyInt ((remaining : ℚ) * q) with hbl
      have hbl0 : 0 ≤ budgetLimit := by
        rw [hbl]
        split
        · omega
        · have hx : (0 : ℚ) ≤ (remaining : ℚ) * q :=
            mul_nonneg (by exact_mod_cast le_of_lt hrempos) hq0
          rw [pyInt, if_pos hx]
          exact Int.le_floor.mpr (by exact_mod_cast hx)
      have hblB : budgetLimit ≤ remaining := by
        rw [hbl]
        split
        · omega
        · have hx : (0 : ℚ) ≤ (remaining : ℚ) * q :=
            mul_nonneg (by exact_mod_cast le_of_lt hrempos) hq0
          have hle : (remaining : ℚ) * q ≤ (remaining : ℚ) :=
            mul_le_of_le_one_right (by exact_mod_cast le_of_lt hrempos) hq1
          rw [pyInt, if_pos hx]
          calc ⌊(remaining : ℚ) * q⌋ ≤ ⌊(remaining : ℚ)⌋ := Int.floor_le_floor hle
            _ = remaining := Int.floor_intCast remaining
      have hused0 : 0 ≤ (filter_session_from_end (some t) bufSize extract budgetLimit).2.1 :=
        filter_session_used_nonneg _ _ _ _
      have husedle : (filter_session_from_end (some t) bufSize extract budgetLimit).2.1 ≤
          budgetLimit :=
        filter_session_used_le _ _ _ _ hbl0
      set used := (filter_session_from_end (some t) bufSize extract budgetLimit).2.1
      have hrem2 : 0 ≤ remaining - used := by omega
      obtain ⟨ihsum, ihmem, ihpre⟩ := ih (remaining - used) hrem2
      have heq : allocLoop bufSize extract minB q ((sid, t) :: rest) remaining =
          ⟨sid, (filter_session_from_end (some t) bufSize extract budgetLimit).1, used,
            budgetLimit, (filter_session_from_end (some t) bufSize extract budgetLimit).2.2,
            remaining - used⟩ ::
            allocLoop bufSize extract minB q rest (remaining - used) := by
        rw [allocLoop]
        rw [if_neg hstop]
      refine ⟨?_, ?_, ?_⟩
      · rw [heq]
        simp only [List.map_cons, List.sum_cons]
        omega
      · rw [heq]
        intro r hr
        rcases List.mem_cons.mp hr with hr | hr
        · subst hr
          refine ⟨hused0, husedle, by omega, ?_, by simp⟩
          dsimp only
          rw [show remaining - used + used = remaining by omega]
        · obtain ⟨h1, h2, h3, h4, h5⟩ := ihmem r hr
          exact ⟨h1, h2, h3, h4, by simp [h5]⟩
      · obtain ⟨rest2, hrest2⟩ := ihpre
        refine ⟨rest2, ?_⟩
        rw [heq]
        simp only [List.map_cons]
        rw [hrest2, List.cons_append]

/-- C2: in multi-session dual-source recovery with nonnegative total
budget B and decay factor between 0 and 1, the processed sessions are a
newest-first prefix of the non-current sessions; each processed session
receives the whole remaining budget when remaining is at or below the
minimum session budget and remaining times the decay factor otherwise;
the actually used amount (bounded by the allocated limit) is what is
subtracted from remaining; the current session is never processed; the
summed usage never exceeds B; and display order is the reverse of
allocation order. -/
theorem C2_dual_source_allocation (bufSize : Nat) (extract : String → Option Entry)
    (minB : Int) (q : ℚ) (sessionTranscripts : List (String × List Char))
    (currentSid : String) (B : Int) (hq0 : 0 ≤ q) (hq1 : q ≤ 1) (hB : 0 ≤ B) :
    (((dual_source_alloc bufSize extract minB q sessionTranscripts currentSid B).map
        (fun r => r.used)).sum ≤ B) ∧
    (∀ r ∈ dual_source_alloc bufSize extract minB q sessionTranscripts currentSid B,
      0 ≤ r.used ∧ r.used ≤ r.budgetLimit ∧
      r.remainingAfter = (r.remainingAfter + r.used) - r.used ∧
      r.budgetLimit = (if r.remainingAfter + r.used ≤ minB then r.remainingAfter + r.used
        else pyInt (((r.remainingAfter + r.used : Int) : ℚ) * q))) ∧
    (currentSid ≠ "" →
      ∀ r ∈ dual_source_alloc bufSize extract minB q sessionTranscripts currentSid B,
        r.sid ≠ currentSid) ∧
    (∃ rest2,
      (if currentSid ≠ "" then
          sessionTranscripts.reverse.filter (fun p => p.1 != currentSid)
        else sessionTranscripts.reverse).map Prod.fst =
        (dual_source_alloc bufSize extract minB q sessionTranscripts currentSid B).map
          (fun r => r.sid) ++ rest2) ∧
    dual_source_display bufSize extract minB q sessionTranscripts currentSid B =
      (dual_source_alloc bufSize extract minB q sessionTranscripts currentSid B).reverse := by
  have halloc : dual_source_alloc bufSize extract minB q sessionTranscripts currentSid B =
      allocLoop bufSize extract minB q
        (if currentSid ≠ "" then
            sessionTranscripts.reverse.filter (fun p => p.1 != currentSid)
          else sessionTranscripts.reverse) B := rfl
  obtain ⟨hsum, hmem, hpre⟩ := allocLoop_spec bufSize extract minB q hq0 hq1
    (if currentSid ≠ "" then
        sessionTranscripts.reverse.filter (fun p => p.1 != currentSid)
      else sessionTranscripts.reverse) B hB
  refine ⟨by rw [halloc]; exact hsum, ?_, ?_, ?_, rfl⟩
  · intro r hr
    rw [halloc] at hr
    obtain ⟨h1, h2, h3, h4, _⟩ := hmem r hr
    exact ⟨h1, h2, h3, h4⟩
  · intro hcur r hr
    rw [halloc] at hr
    obtain ⟨_, _, _, _, h5⟩ := hmem r hr
    rw [if_pos hcur] at h5
    obtain ⟨p, hp, hps⟩ := List.mem_map.mp h5
    obtain ⟨_, hpf⟩ := List.mem_filter.mp hp
    rw [← hps]
    simpa using hpf
  · rw [halloc]
    exact hpre

theorem C2_dual_source_allocation_witness :
    (((dual_source_alloc 8192 sampleExtract 1000 (1 / 2 : ℚ)
        [("s1", "u\nu".toList)] "cur" 50000).map (fun r => r.used)).sum ≤ 50000) :=
  (C2_dual_source_allocation 8192 sampleExtract 1000 (1 / 2 : ℚ)
    [("s1", "u\nu".toList)] "cur" 50000 (by norm_num) (by norm_num) (by norm_num)).1

/-- C8 counterexample: a transcript file that exists but is empty does
not return the no-transcript sentinel; it falls through to the
no-conversational-content sentinel, so grouping the empty transcript
with the missing one under the no-transcript sentinel is false. -/
theorem C8_empty_transcript_counterexample :
    filter_session_from_end (some []) 8192 sampleExtract 50000 =
      ("No conversational content found in transcript.", 0, 0) ∧
    ("No conversational content found in transcript." : String) ≠
      "No transcript found." := by
  exact ⟨rfl, by decide⟩

/-- C8 amended: a missing or unset transcript yields the no-transcript
sentinel with zero usage; a transcript that exists (even an empty one)
in which no turn survives extraction and filtering yields the distinct
no-conversational-content sentinel, also with zero usage. -/
theorem C8_sentinels (bufSize : Nat) (extract : String → Option Entry) (B : Int) :
    filter_session_from_end none bufSize extract B = ("No transcript found.", 0, 0) ∧
    (∀ content : List Char,
      (reverse_readline content bufSize).filterMap extract = [] →
      filter_session_from_end (some content) bufSize extract B =
        ("No conversational content found in transcript.", 0, 0)) := by
  refine ⟨rfl, ?_⟩
  intro content hnone
  obtain ⟨-, -, -, -, hsub⟩ :=
    filterEntriesLoop_spec extract (reverse_readline content bufSize) (B - 100) 0
  rw [hnone] at hsub
  have hnil := List.sublist_nil.mp hsub
  simp only [filter_session_from_end]
  rw [if_pos (by simp [hnil])]

theorem C8_sentinels_witness :
    filter_session_from_end (some ("x".toList)) 8192 sampleExtract 50000 =
      ("No conversational content found in transcript.", 0, 0) :=
  (C8_sentinels 8192 sampleExtract 50000).2 ("x".toList) (by decide)

/-- C9: the transcript extractor is deterministic in its inputs: two
runs on the same transcript contents with the same buffer size, the same
extraction configuration (which carries the truncate flag) and the same
budget return identical results.  The model consumes the transcript as
an immutable value, matching the read-only open of the source file. -/
theorem C9_filter_session_deterministic (t1 t2 : Option (List Char))
    (bufSize1 bufSize2 : Nat) (extract1 extract2 : String → Option Entry)
    (B1 B2 : Int) (ht : t1 = t2) (hb : bufSize1 = bufSize2)
    (he : extract1 = extract2) (hB : B1 = B2) :
    filter_session_from_end t1 bufSize1 extract1 B1 =
      filter_session_from_end t2 bufSize2 extract2 B2 := by
  subst ht hb he hB
  rfl

theorem C9_filter_session_deterministic_witness :
    filter_session_from_end (some ("u\nu".toList)) 8192 sampleExtract 50000 =
      filter_session_from_end (some ("u\nu".toList)) 8192 sampleExtract 50000 :=
  C9_filter_session_deterministic _ _ _ _ _ _ _ _ rfl rfl rfl rfl

/-! ## detect_failure and the strike protocol (focus_hook.py lines 292-371) -/

/-- Lowercasing as applied by the source before pattern matching. -/
def pyLower (s : String) : String := String.mk (s.toList.map Char.toLower)

/-- A dict-shaped tool response: the error field (absent, or its
str()-rendered value, with the empty string standing for a falsy error
value) and the unscanned content/result payload. -/
structure RespDict where
  error : Option String
  content : String
deriving DecidableEq

/-- A tool response: absent/falsy, a dict, or a plain string. -/
inductive ToolResponse where
  | nothing
  | dict (d : RespDict)
  | str (s : String)
deriving DecidableEq

/-- Boolean substring containment, mirroring the Python infix test of a
pattern inside a string; an empty pattern is contained in everything. -/
def containsSub : List Char → List Char → Bool
  | hay, pat =>
    if pat.isPrefixOf hay then true
    else
      match hay with
      | [] => false
      | _ :: rest => containsSub rest pat

/-- First index at which the pattern occurs, mirroring str.find on the
branch where a match is known to exist. -/
def firstIdxOf : List Char → List Char → Nat
  | hay, pat =>
    if pat.isPrefixOf hay then 0
    else
      match hay with
      | [] => 0
      | _ :: rest => firstIdxOf rest pat + 1

/-- Model of detect_failure (focus_hook.py lines 300-326): a dict
response is classified only by its error field; a nonempty string
response is scanned wholesale; a falsy response is never a failure. -/
def detect_failure (patterns : List String) : ToolResponse → Bool × Option String
  | .nothing => (false, Option.none)
  | .dict d =>
    match d.error with
    | Option.none => (false, Option.none)
    | Option.some e =>
      if e = "" then (false, Option.none)
      else
        let errorStr := pyLower e
        match patterns.find? (fun p => containsSub errorStr.toList p.toList) with
        | Option.some _ => (true, Option.some (String.mk (errorStr.toList.take 120)))
        | Option.none => (false, Option.none)
  | .str s =>
    if s = "" then (false, Option.none)
    else
      let responseStr := pyLower s
      match patterns.find? (fun p => containsSub responseStr.toList p.toList) with
      | Option.some p =>
        let idx := firstIdxOf responseStr.toList p.toList
        let start := idx - 20
        (true, Option.some (String.mk ((responseStr.toList.drop start).take (idx + 100 - start))))
      | Option.none => (false, Option.none)

/-- The error field a response carries, if any: only dict responses have
one. -/
def errorFieldOf : ToolResponse → Option String
  | .dict d => d.error
  | _ => Option.none

/-- C6 counterexample: a plain-string tool response carrying no error
field at all is classified as a failure because the string branch scans
the whole response body, refuting the claim that a response without an
error field is never classified as a failure. -/
theorem C6_string_response_counterexample :
    (detect_failure ["error"] (ToolResponse.str "fatal error occurred")).1 = true ∧
    errorFieldOf (ToolResponse.str "fatal error occurred") = Option.none := by
  decide

/-- C6 amended: for dict responses, detect_failure reports a failure if
and only if the error field is present, truthy, and contains one of the
configured patterns case-insensitively; the classification of a dict
response depends only on its error field, never on the content payload;
a falsy response is never a failure; but a nonempty plain-string
response is scanned wholesale, reporting a failure exactly when some
pattern occurs in the lowered string. -/
theorem C6_detect_failure_error_field (patterns : List String) (d : RespDict) (s : String) :
    ((detect_failure patterns (ToolResponse.dict d)).1 = true ↔
      ∃ e, d.error = Option.some e ∧ e ≠ "" ∧
        ∃ p ∈ patterns, containsSub (pyLower e).toList p.toList = true) ∧
    (∀ d2 : RespDict, d2.error = d.error →
      detect_failure patterns (ToolResponse.dict d2) =
        detect_failure patterns (ToolResponse.dict d)) ∧
    (detect_failure patterns ToolResponse.nothing).1 = false ∧
    ((detect_failure patterns (ToolResponse.str s)).1 = true ↔
      (s ≠ "" ∧ ∃ p ∈ patterns, containsSub (pyLower s).toList p.toList = true)) := by
  refine ⟨?_, ?_, rfl, ?_⟩
  · rcases he : d.error with _ | e
    · simp [detect_failure, he]
    · by_cases hemp : e = ""
      · subst hemp
        simp [detect_failure, he]
      · rcases hf : patterns.find? (fun p => containsSub (pyLower e).data p.data) with _ | p
        · have hd : (detect_failure patterns (ToolResponse.dict d)).1 = false := by
            simp [detect_failure, he, hemp, hf]
          rw [hd]
          simp only [Bool.false_eq_true, false_iff]
          rintro ⟨e2, he2, -, p, hp, hinf⟩
          obtain rfl : e = e2 := by simpa using he2
          exact absurd hinf (by simpa using List.find?_eq_none.mp hf p hp)
        · have hd : (detect_failure patterns (ToolResponse.dict d)).1 = true := by
            simp [detect_failure, he, hemp, hf]
          rw [hd]
          simp only [true_iff]
          refine ⟨e, rfl, hemp, p, List.mem_of_find?_eq_some hf, ?_⟩
          simpa using List.find?_some hf
  · intro d2 he
    simp only [detect_failure, he]
  · by_cases hemp : s = ""
    · subst hemp
      simp [detect_failure]
    · rcases hf : patterns.find? (fun p => containsSub (pyLower s).data p.data) with _ | p
      · have hd : (detect_failure patterns (ToolResponse.str s)).1 = false := by
          simp [detect_failure, hemp, hf]
        rw [hd]
        simp only [Bool.false_eq_true, false_iff]
        rintro ⟨-, p, hp, hinf⟩
        exact absurd hinf (by simpa using List.find?_eq_none.mp hf p hp)
      · have hd : (detect_failure patterns (ToolResponse.str s)).1 = true := by
          simp [detect_failure, hemp, hf]
        rw [hd]
        simp only [true_iff]
        refine ⟨hemp, p, List.mem_of_find?_eq_some hf, ?_⟩
        simpa using List.find?_some hf

/-- Tool input fields consulted by get_operation_key and the constraint
checks. -/
structure ToolInput where
  file_path : Option String
  path : Option String
  command : Option String
  new_string : Option String
  content : Option String
deriving DecidableEq

/-- Python or-chain over possibly-absent strings: an absent or empty
left operand falls through to the right operand. -/
def pyOrStr (a : Option String) (b : String) : String :=
  match a with
  | Option.some s => if s = "" then b else s
  | Option.none => b

/-- Model of get_operation_key (focus_hook.py lines 292-297): tool name
plus the file path, generic path, or first 50 command characters, with
the literal unknown marker when nothing is available or the input is not
a dict. -/
def get_operation_key (toolName : String) (toolInput : Option ToolInput) : String :=
  let filePath :=
    match toolInput with
    | Option.some ti =>
        pyOrStr ti.file_path (pyOrStr ti.path ((ti.command.getD "").take 50))
    | Option.none => ""
  toolName ++ ":" ++ (if filePath = "" then "unknown" else filePath)

/-- Per-key persisted strike record. -/
structure StrikeEntry where
  count : Nat
  last_error : String
deriving DecidableEq

/-- First-strike message. -/
def strikeMsg1 (opKey : String) : String :=
  "\n[focus] [!] STRIKE 1/3: Operation failed\n" ++ opKey ++
    "\n→ Diagnose & Fix the issue\n"

/-- Second-strike message. -/
def strikeMsg2 (opKey : String) : String :=
  "\n[focus] [!!] STRIKE 2/3: Same operation failed again!\n" ++ opKey ++
    "\n→ MUST use Alternative Approach (NEVER repeat same action)\n"

/-- Third-and-beyond strike message. -/
def strikeMsg3 (opKey : String) : String :=
  "\n[focus] [!!!] STRIKE 3/3: ESCALATE TO USER\n" ++ opKey ++
    "\n→ Broader Rethink required\n→ Ask user for guidance before proceeding\n" ++
    "→ Record this issue in focus_context.md Issues table\n"

/-- The escalation message chain for a given strike count, mirroring the
if/elif chain of the source: first strike, second strike, max-or-more
strikes, and silence for counts strictly between two and the configured
maximum. -/
def strikeMessage (maxStrikes : Nat) (opKey : String) (strike : Nat) : Option String :=
  if strike = 1 then Option.some (strikeMsg1 opKey)
  else if strike = 2 then Option.some (strikeMsg2 opKey)
  else if strike ≥ maxStrikes then Option.some (strikeMsg3 opKey)
  else Option.none

/-- Count recorded for a key, zero when the key is absent. -/
def countOf (counts : String → Option StrikeEntry) (k : String) : Nat :=
  match counts k with
  | Option.some en => en.count
  | Option.none => 0

/-- Model of check_and_update_strikes (focus_hook.py lines 329-371): a
detected failure increments the count for the operation key, stores the
snippet, and returns the escalation message; a success deletes the key
if present and returns no message. -/
def check_and_update_strikes (patterns : List String) (maxStrikes : Nat)
    (toolName : String) (toolInput : Option ToolInput) (resp : ToolResponse)
    (counts : String → Option StrikeEntry) :
    (String → Option StrikeEntry) × Option String :=
  let fr := detect_failure patterns resp
  let opKey := get_operation_key toolName toolInput
  if fr.1 then
    let strike := countOf counts opKey + 1
    let counts2 : String → Option StrikeEntry :=
      fun k => if k = opKey then Option.some ⟨strike, fr.2.getD ""⟩ else counts k
    (counts2, strikeMessage maxStrikes opKey strike)
  else
    match counts opKey with
    | Option.some _ =>
        (fun k => if k = opKey then Option.none else counts k, Option.none)
    | Option.none => (counts, Option.none)

/-- Folding a sequence of post-action responses through the strike
update. -/
def processOutcomes (patterns : List String) (maxStrikes : Nat) (toolName : String)
    (toolInput : Option ToolInput) (resps : List ToolResponse)
    (counts0 : String → Option StrikeEntry) : String → Option StrikeEntry :=
  resps.foldl
    (fun c r => (check_and_update_strikes patterns maxStrikes toolName toolInput r c).1)
    counts0

/-- Length of the trailing run of consecutive failures in a response
sequence. -/
def trailingFailures (patterns : List String) (resps : List ToolResponse) : Nat :=
  ((resps.reverse).takeWhile (fun r => (detect_failure patterns r).1)).length

theorem strikes_step_fail (patterns : List String) (maxStrikes : Nat)
    (toolName : String) (toolInput : Option ToolInput) (resp : ToolResponse)
    (counts : String → Option StrikeEntry)
    (hf : (detect_failure patterns resp).1 = true) :
    (check_and_update_strikes patterns maxStrikes toolName toolInput resp counts).1
        (get_operation_key toolName toolInput) =
      Option.some ⟨countOf counts (get_operation_key toolName toolInput) + 1,
        (detect_failure patterns resp).2.getD ""⟩ ∧
    (check_and_update_strikes patterns maxStrikes toolName toolInput resp counts).2 =
      strikeMessage maxStrikes (get_operation_key toolName toolInput)
        (countOf counts (get_operation_key toolName toolInput) + 1) := by
  simp only [check_and_update_strikes, hf, if_true]
  constructor
  · simp
  · simp

theorem strikes_step_success (patterns : List String) (maxStrikes : Nat)
    (toolName : String) (toolInput : Option ToolInput) (resp : ToolResponse)
    (counts : String → Option StrikeEntry)
    (hf : (detect_failure patterns resp).1 = false) :
    (check_and_update_strikes patterns maxStrikes toolName toolInput resp counts).1
        (get_operation_key toolName toolInput) = Option.none ∧
    (check_and_update_strikes patterns maxStrikes toolName toolInput resp counts).2 =
      Option.none := by
  simp only [check_and_update_strikes, hf, Bool.false_eq_true, if_false]
  rcases hc : counts (get_operation_key toolName toolInput) with _ | en
  · simp [hc]
  · simp [hc]

theorem processOutcomes_trailing (patterns : List String) (maxStrikes : Nat)
    (toolName : String) (toolInput : Option ToolInput)
    (counts0 : String → Option StrikeEntry)
    (h0 : counts0 (get_operation_key toolName toolInput) = Option.none) :
    ∀ resps : List ToolResponse,
      ((processOutcomes patterns maxStrikes toolName toolInput resps counts0)
          (get_operation_key toolName toolInput)).map (fun en => en.count) =
        (if trailingFailures patterns resps = 0 then Option.none
          else Option.some (trailingFailures patterns resps)) := by
  intro resps
  induction resps using List.reverseRecOn with
  | nil =>
    simp [processOutcomes, trailingFailures, h0]
  | append_singleton rs r ih =>
    have hps : processOutcomes patterns maxStrikes toolName toolInput (rs ++ [r]) counts0 =
        (check_and_update_strikes patterns maxStrikes toolName toolInput r
          (processOutcomes patterns maxStrikes toolName toolInput rs counts0)).1 := by
      simp [processOutcomes, List.foldl_append]
    have htr : trailingFailures patterns (rs ++ [r]) =
        (if (detect_failure patterns r).1 then trailingFailures patterns rs + 1 else 0) := by
      simp only [trailingFailures, List.reverse_append, List.reverse_singleton,
        List.singleton_append, List.takeWhile_cons]
      split <;> simp
    rcases hfail : (detect_failure patterns r).1 with _ | _
    · obtain ⟨hk, -⟩ := strikes_step_success patterns maxStrikes toolName toolInput r
        (processOutcomes patterns maxStrikes toolName toolInput rs counts0) hfail
      rw [hps, hk, htr, hfail]
      simp
    · obtain ⟨hk, -⟩ := strikes_step_fail patterns maxStrikes toolName toolInput r
        (processOutcomes patterns maxStrikes toolName toolInput rs counts0) hfail
      have hcnt : countOf (processOutcomes patterns maxStrikes toolName toolInput rs counts0)
          (get_operation_key toolName toolInput) = trailingFailures patterns rs := by
        have hmap := ih
        rcases hx : (processOutcomes patterns maxStrikes toolName toolInput rs counts0)
            (get_operation_key toolName toolInput) with _ | en
        · have hc0 : countOf (processOutcomes patterns maxStrikes toolName toolInput rs counts0)
              (get_operation_key toolName toolInput) = 0 := by rw [countOf, hx]
          rw [hc0]
          rw [hx] at hmap
          simp only [Option.map] at hmap
          split at hmap
          · omega
          · exact absurd hmap (by simp)
        · have hcn : countOf (processOutcomes patterns maxStrikes toolName toolInput rs counts0)
              (get_operation_key toolName toolInput) = en.count := by rw [countOf, hx]
          rw [hcn]
          rw [hx] at hmap
          simp only [Option.map] at hmap
          split at hmap
          · exact absurd hmap (by simp)
          · exact (Option.some.injEq _ _).mp hmap
      rw [hps, hk, htr, hfail, hcnt]
      simp

/-- C3: with the default three-strike configuration and a fresh key,
after processing any finite outcome sequence the persisted count for the
operation key equals the length of the trailing run of consecutive
failures, with the key absent when that run is empty; each failure
increments the count by exactly one and yields the escalation message
for the new count (first strike, second strike, and the same third-tier
message for every count of three or more); a success deletes the key
entirely and emits no message. -/
theorem C3_strike_escalation (patterns : List String) (maxStrikes : Nat)
    (toolName : String) (toolInput : Option ToolInput)
    (counts0 : String → Option StrikeEntry) (resps : List ToolResponse)
    (hmax : maxStrikes = 3)
    (h0 : counts0 (get_operation_key toolName toolInput) = Option.none) :
    ((processOutcomes patterns maxStrikes toolName toolInput resps counts0)
        (get_operation_key toolName toolInput)).map (fun en => en.count) =
      (if trailingFailures patterns resps = 0 then Option.none
        else Option.some (trailingFailures patterns resps)) ∧
    (∀ (counts : String → Option StrikeEntry) (r : ToolResponse),
      (detect_failure patterns r).1 = true →
      countOf (check_and_update_strikes patterns maxStrikes toolName toolInput r counts).1
          (get_operation_key toolName toolInput) =
        countOf counts (get_operation_key toolName toolInput) + 1 ∧
      (check_and_update_strikes patterns maxStrikes toolName toolInput r counts).2 =
        (if countOf counts (get_operation_key toolName toolInput) + 1 = 1 then
            Option.some (strikeMsg1 (get_operation_key toolName toolInput))
          else if countOf counts (get_operation_key toolName toolInput) + 1 = 2 then
            Option.some (strikeMsg2 (get_operation_key toolName toolInput))
          else Option.some (strikeMsg3 (get_operation_key toolName toolInput)))) ∧
    (∀ (counts : String → Option StrikeEntry) (r : ToolResponse),
      (detect_failure patterns r).1 = false →
      (check_and_update_strikes patterns maxStrikes toolName toolInput r counts).1
          (get_operation_key toolName toolInput) = Option.none ∧
      (check_and_update_strikes patterns maxStrikes toolName toolInput r counts).2 =
        Option.none) := by
  subst hmax
  refine ⟨processOutcomes_trailing patterns 3 toolName toolInput counts0 h0 resps, ?_, ?_⟩
  · intro counts r hf
    obtain ⟨hk, hmsg⟩ := strikes_step_fail patterns 3 toolName toolInput r counts hf
    constructor
    · rw [countOf, hk]
    · rw [hmsg, strikeMessage]
      by_cases h1 : countOf counts (get_operation_key toolName toolInput) + 1 = 1
      · rw [if_pos h1, if_pos h1]
      · rw [if_neg h1, if_neg h1]
        by_cases h2 : countOf counts (get_operation_key toolName toolInput) + 1 = 2
        · rw [if_pos h2, if_pos h2]
        · rw [if_neg h2, if_neg h2, if_pos (by omega)]
  · intro counts r hf
    exact strikes_step_success patterns 3 toolName toolInput r counts hf

theorem C3_strike_escalation_witness :
    ((processOutcomes ["error"] 3 "Write"
        (Option.some ⟨Option.some "/a.py", Option.none, Option.none, Option.none, Option.none⟩)
        [ToolResponse.dict ⟨Option.some "Error: boom", ""⟩,
         ToolResponse.dict ⟨Option.some "Error: boom", ""⟩,
         ToolResponse.nothing,
         ToolResponse.dict ⟨Option.some "Error: boom", ""⟩]
        (fun _ => Option.none))
      (get_operation_key "Write"
        (Option.some ⟨Option.some "/a.py", Option.none, Option.none, Option.none, Option.none⟩))).map
        (fun en => en.count) =
      (if trailingFailures ["error"]
          [ToolResponse.dict ⟨Option.some "Error: boom", ""⟩,
           ToolResponse.dict ⟨Option.some "Error: boom", ""⟩,
           ToolResponse.nothing,
           ToolResponse.dict ⟨Option.some "Error: boom", ""⟩] = 0 then Option.none
        else Option.some (trailingFailures ["error"]
          [ToolResponse.dict ⟨Option.some "Error: boom", ""⟩,
           ToolResponse.dict ⟨Option.some "Error: boom", ""⟩,
           ToolResponse.nothing,
           ToolResponse.dict ⟨Option.some "Error: boom", ""⟩])) :=
  (C3_strike_escalation ["error"] 3 "Write"
    (Option.some ⟨Option.some "/a.py", Option.none, Option.none, Option.none, Option.none⟩) (fun _ => Option.none)
    [ToolResponse.dict ⟨Option.some "Error: boom", ""⟩,
     ToolResponse.dict ⟨Option.some "Error: boom", ""⟩,
     ToolResponse.nothing,
     ToolResponse.dict ⟨Option.some "Error: boom", ""⟩] rfl rfl).1

/-! ## remove_processed_sessions (checkpoint_session.py lines 227-256) -/

/-- One operation record as far as pruning is concerned: the session id
found under its ids field (possibly absent) and the rest of the record. -/
structure OpRecord where
  ids_session_id : Option String
  payload : String
deriving DecidableEq

/-- Python membership of a possibly-absent session id in the removal
list: an absent id is never a member of a list of strings. -/
def sidInList (sid : Option String) (sids : List String) : Bool :=
  match sid with
  | Option.some s => sids.contains s
  | Option.none => false

/-- Counts reported by remove_processed_sessions. -/
structure PruneResult where
  original : Nat
  removed : Nat
  remaining : Nat
deriving DecidableEq

/-- The retained records: exactly those whose session id is not in the
removal list, in their original order. -/
def pruneRemaining (ops : List OpRecord) (sids : List String) : List OpRecord :=
  ops.filter (fun op => !(sidInList op.ids_session_id sids))

/-- Model of remove_processed_sessions: the operations file is none when
missing; the result pairs the reported counts with the file state after
the call (the file is rewritten with the retained records only when at
least one record was removed and dry_run is off). -/
def remove_processed_sessions (fileOps : Option (List OpRecord))
    (processed_sids : List String) (dry_run : Bool) :
    PruneResult × Option (List OpRecord) :=
  match fileOps with
  | Option.none => (⟨0, 0, 0⟩, Option.none)
  | Option.some ops =>
    let remaining := pruneRemaining ops processed_sids
    let original := ops.length
    let removed := original - remaining.length
    (⟨original, removed, remaining.length⟩,
      if dry_run = false ∧ 0 < removed then Option.some remaining else Option.some ops)

/-- C4: pruning computes counts with original equal to removed plus
remaining; the retained log is exactly the subsequence of records whose
session id is not in the removal set, preserving relative order; the
file is rewritten (with exactly that subsequence) only when at least one
record was removed and dry_run is off, and a dry run computes the same
counts while never modifying the file. -/
theorem C4_prune (ops : List OpRecord) (sids : List String) (dry_run : Bool) :
    (remove_processed_sessions (Option.some ops) sids dry_run).1.original =
      (remove_processed_sessions (Option.some ops) sids dry_run).1.removed +
        (remove_processed_sessions (Option.some ops) sids dry_run).1.remaining ∧
    List.Sublist (pruneRemaining ops sids) ops ∧
    (∀ op ∈ pruneRemaining ops sids, sidInList op.ids_session_id sids = false) ∧
    (∀ op ∈ ops, sidInList op.ids_session_id sids = false →
      op ∈ pruneRemaining ops sids) ∧
    (remove_processed_sessions (Option.some ops) sids dry_run).1 =
      ⟨ops.length, ops.length - (pruneRemaining ops sids).length,
        (pruneRemaining ops sids).length⟩ ∧
    (remove_processed_sessions (Option.some ops) sids dry_run).2 =
      (if dry_run = false ∧ 0 < ops.length - (pruneRemaining ops sids).length then
        Option.some (pruneRemaining ops sids) else Option.some ops) ∧
    (dry_run = true → (remove_processed_sessions (Option.some ops) sids dry_run).2 =
      Option.some ops) ∧
    (remove_processed_sessions (Option.some ops) sids true).1 =
      (remove_processed_sessions (Option.some ops) sids false).1 := by
  have hsub : List.Sublist (pruneRemaining ops sids) ops := List.filter_sublist ops
  have hlen : (pruneRemaining ops sids).length ≤ ops.length := hsub.length_le
  refine ⟨?_, hsub, ?_, ?_, rfl, rfl, ?_, rfl⟩
  · simp only [remove_processed_sessions]
    omega
  · intro op hop
    have := List.of_mem_filter hop
    simpa using this
  · intro op hop hsid
    exact List.mem_filter.mpr ⟨hop, by simp [hsid]⟩
  · intro hdry
    subst hdry
    simp [remove_processed_sessions]

theorem C4_prune_witness :
    (remove_processed_sessions
        (Option.some [⟨Option.some "abc", "r1"⟩, ⟨Option.some "xyz", "r2"⟩,
          ⟨Option.some "abc", "r3"⟩]) ["abc"] true).2 =
      Option.some [⟨Option.some "abc", "r1"⟩, ⟨Option.some "xyz", "r2"⟩,
          ⟨Option.some "abc", "r3"⟩] :=
  ((C4_prune [⟨Option.some "abc", "r1"⟩, ⟨Option.some "xyz", "r2"⟩,
      ⟨Option.some "abc", "r3"⟩] ["abc"] true).2.2.2.2.2.2.1) rfl

/-! ## load_json_file and load_failure_counts
(focus_core.py lines 60-69, focus_hook.py lines 67-77, log_utils.py lines 30-34) -/

/-- The machine-readable block response printed by the fatal-error path. -/
structure BlockOutput where
  decision : String
  reason : String
deriving DecidableEq

/-- Result of a state load that may abort the invocation. -/
inductive LoadResult (α : Type) where
  | ok (v : α)
  | fatal (output : BlockOutput) (exitCode : Nat)
deriving DecidableEq

/-- Model of load_json_file: absent file gives the zero value; an
existing file whose content fails to parse aborts fatally through
_fatal_error, which prints a block decision with a FATAL reason and
exits with code 2. -/
def load_json_file {α : Type} (parse : String → Except String α) (emptyVal : α)
    (fileName : String) (file : Option String) : LoadResult α :=
  match file with
  | Option.none => LoadResult.ok emptyVal
  | Option.some content =>
    match parse content with
    | Except.ok v => LoadResult.ok v
    | Except.error e =>
        LoadResult.fatal
          ⟨"block", "[FATAL] load_json_file failed: " ++ fileName ++ ": " ++ e⟩ 2

/-- Model of load_failure_counts (focus_hook.py lines 67-76): the strike
state file has its own loader that catches any parse error, logs it, and
returns the empty mapping. -/
def load_failure_counts {α : Type} (parse : String → Except String α) (emptyVal : α)
    (file : Option String) : α :=
  match file with
  | Option.none => emptyVal
  | Option.some content =>
    match parse content with
    | Except.ok v => v
    | Except.error _ => emptyVal

/-- C5 counterexample: the loader of the failure-count file, on an
existing file whose content fails to parse, silently returns the empty
mapping instead of aborting with a block response — the claim fails for
exactly the file it singles out. -/
theorem C5_failure_counts_counterexample :
    load_failure_counts
        (fun _ => (Except.error "Expecting value" : Except String (List (String × Nat))))
        [] (Option.some "not json") = [] := by
  rfl

/-- C5 amended: the shared store loader load_json_file does fail fatally
on an existing-but-unparseable file, emitting a block decision whose
reason starts with the FATAL marker and exit code 2, and returns the
zero value only for an absent file; but the failure-count file backing
the strike protocol is read by its own loader, which swallows the parse
error and returns the empty mapping. -/
theorem C5_load_fatal {α : Type} (parse : String → Except String α) (emptyVal : α)
    (fileName : String) (content : String) (e : String)
    (hp : parse content = Except.error e) :
    load_json_file parse emptyVal fileName (Option.some content) =
      LoadResult.fatal
        ⟨"block", "[FATAL] load_json_file failed: " ++ fileName ++ ": " ++ e⟩ 2 ∧
    load_json_file parse emptyVal fileName Option.none = LoadResult.ok emptyVal ∧
    load_failure_counts parse emptyVal (Option.some content) = emptyVal := by
  refine ⟨?_, rfl, ?_⟩
  · simp only [load_json_file, hp]
  · simp only [load_failure_counts, hp]

theorem C5_load_fatal_witness :
    load_json_file (fun _ => (Except.error "boom" : Except String (List (String × Nat))))
        [] "failure_count.json" (Option.some "not json") =
      LoadResult.fatal
        ⟨"block", "[FATAL] load_json_file failed: " ++ "failure_count.json" ++ ": " ++ "boom"⟩
        2 :=
  (C5_load_fatal (fun _ => (Except.error "boom" : Except String (List (String × Nat))))
    [] "failure_count.json" "not json" "boom" rfl).1

/-! ## check_constraints (constraints.py lines 13-391, focus_hook.py lines 827-846)

Regex tests whose patterns come from configuration (the hardcoded-path
rule regexes and the powershell pattern list) are abstracted as a search
oracle `search : String → String → Bool` taking the pattern and the
text; every fixed check is embedded concretely. -/

/-- ASCII characters matched by the regex whitespace class. -/
def isPySpace (c : Char) : Bool :=
  c = ' ' || c = '\t' || c = '\n' || c = '\r' || c = '\x0b' || c = '\x0c'

/-- ASCII lowercase letter. -/
def isAsciiLower (c : Char) : Bool := 'a' ≤ c && c ≤ 'z'

/-- ASCII uppercase letter. -/
def isAsciiUpper (c : Char) : Bool := 'A' ≤ c && c ≤ 'Z'

/-- Extension part of os.path.splitext: the suffix from the last dot of
the final path component, unless every character of the component before
that dot is itself a dot. -/
def extOf (p : String) : String :=
  let basenameRev := p.toList.reverse.takeWhile (fun c => !(c = '/' || c = '\\'))
  let extRev := basenameRev.takeWhile (fun c => c != '.')
  if extRev.length = basenameRev.length then ""
  else
    let stemRev := basenameRev.drop (extRev.length + 1)
    if stemRev.any (fun c => c != '.') then String.mk ('.' :: extRev.reverse)
    else ""

/-- Root part accompanying extOf. -/
def splitextRoot (p : String) : String :=
  String.mk (p.toList.take (p.toList.length - (extOf p).toList.length))

/-- Model of check_line_limit (constraints.py lines 13-33). -/
def check_line_limit (content : String) (threshold : Int) : Bool × Option String :=
  let lineCount : Int := (content.toList.count '\n' : Nat) + 1
  if lineCount > threshold then
    (false, Option.some ("Modification exceeds " ++ toString threshold ++
      " lines (actual: " ++ toString lineCount ++ "), consider splitting into smaller changes"))
  else (true, Option.none)

/-- Model of check_no_tabs (constraints.py lines 36-62). -/
def check_no_tabs (content filePath : String) (extensions : List String) :
    Bool × Option String :=
  if !(extensions.contains (pyLower (extOf filePath))) then (true, Option.none)
  else if content.toList.contains '\t' then
    (false, Option.some "Tab characters detected, use spaces for indentation")
  else (true, Option.none)

/-- Leading-anchored match of optional whitespace, then sed or awk, then
one whitespace character. -/
def matchSedAwk (command : String) : Bool :=
  match command.toList.dropWhile isPySpace with
  | 's' :: 'e' :: 'd' :: c :: _ => isPySpace c
  | 'a' :: 'w' :: 'k' :: c :: _ => isPySpace c
  | _ => false

/-- Removal of every non-overlapping double backslash, scanning left to
right. -/
def removeDoubleBackslash : List Char → List Char
  | [] => []
  | '\\' :: '\\' :: rest => removeDoubleBackslash rest
  | c :: rest => c :: removeDoubleBackslash rest

/-- Removal of every backslash escape of n, t, r, double quote, single
quote or zero, scanning left to right. -/
def removeEscapes : List Char → List Char
  | [] => []
  | '\\' :: c :: rest =>
    if c = 'n' || c = 't' || c = 'r' || c = '"' || c = '\'' || c = '0' then
      removeEscapes rest
    else '\\' :: removeEscapes (c :: rest)
  | c :: rest => c :: removeEscapes rest

/-- Model of check_no_backslash_path (constraints.py lines 65-93). -/
def check_no_backslash_path (command : String) : Bool × Option String :=
  if matchSedAwk command then (true, Option.none)
  else
    let cleaned := removeEscapes (removeDoubleBackslash command.toList)
    if cleaned.contains '\\' then
      (false, Option.some "Backslash path detected, use forward slash / instead")
    else (true, Option.none)

/-- Leading-anchored match of optional whitespace then a dot then a
backslash. -/
def matchDotBackslash (command : String) : Bool :=
  match command.toList.dropWhile isPySpace with
  | '.' :: '\\' :: _ => true
  | _ => false

/-- The built-in powershell pattern defaults of the source. -/
def defaultPsPatterns : List String :=
  ["\\bGet-ChildItem\\b", "\\bSelect-String\\b", "\\bGet-Content\\b",
   "\\bSet-Location\\b", "\\bNew-Item\\b", "\\bRemove-Item\\b",
   "\\bWrite-Host\\b", "\\bInvoke-WebRequest\\b", "\\bInvoke-Expression\\b"]

/-- Model of check_no_powershell (constraints.py lines 96-132); the
configured patterns are tested through the search oracle. -/
def check_no_powershell (search : String → String → Bool) (patterns : List String)
    (checkDotBackslash : Bool) (command : String) : Bool × Option String :=
  match patterns.find? (fun p => search p command) with
  | Option.some _ =>
      (false, Option.some "PowerShell commands not allowed, use Git Bash instead")
  | Option.none =>
    if checkDotBackslash then
      if matchDotBackslash command then
        (false, Option.some "PowerShell commands not allowed, use Git Bash instead")
      else (true, Option.none)
    else (true, Option.none)

/-- Leading-anchored match of whitespace, the word cat, at least one
whitespace character, then a character other than a pipe or a
redirect-in; backtracking lets the final character class consume a
whitespace character when at least two follow the word. -/
def matchCatPattern (command : String) : Bool :=
  match command.toList.dropWhile isPySpace with
  | 'c' :: 'a' :: 't' :: rest2 =>
    let ws := rest2.takeWhile isPySpace
    if ws.length = 0 then false
    else if 2 ≤ ws.length then true
    else
      match rest2.dropWhile isPySpace with
      | [] => false
      | d :: _ => !(d = '|' || d = '<')
  | _ => false

/-- Leading-anchored match of whitespace, a fixed word, then one
whitespace character. -/
def matchWordThenSpace (word : List Char) (command : String) : Bool :=
  let rest := command.toList.dropWhile isPySpace
  word.isPrefixOf rest &&
    (match rest.drop word.length with
      | c :: _ => isPySpace c
      | [] => false)

/-- Leading-anchored match of whitespace, the word find, whitespace, a
non-whitespace token, whitespace, then the literal -name later on the
same line. -/
def matchFindPattern (command : String) : Bool :=
  let rest := command.toList.dropWhile isPySpace
  if ("find".toList).isPrefixOf rest then
    let a := rest.drop 4
    let ws1 := a.takeWhile isPySpace
    if ws1.length = 0 then false
    else
      let b := a.drop ws1.length
      let nw := b.takeWhile (fun c => !isPySpace c)
      if nw.length = 0 then false
      else
        match b.drop nw.length with
        | d :: region =>
          if isPySpace d then
            containsSub (region.takeWhile (fun ch => ch != '\n')) ("-name".toList)
          else false
        | [] => false
  else false

/-- Model of check_no_bash_file_ops (constraints.py lines 135-171). -/
def check_no_bash_file_ops (command : String) : Bool × Option String :=
  if containsSub command.toList ("<<".toList) then (true, Option.none)
  else if matchCatPattern command then
    (false, Option.some "Consider using Read tool instead of cat command")
  else if matchWordThenSpace ("head".toList) command then
    (false, Option.some "Consider using Read tool instead of head command")
  else if matchWordThenSpace ("tail".toList) command then
    (false, Option.some "Consider using Read tool instead of tail command")
  else if matchWordThenSpace ("grep".toList) command then
    (false, Option.some "Consider using Grep tool instead of grep command")
  else if matchWordThenSpace ("rg".toList) command then
    (false, Option.some "Consider using Grep tool instead of rg command")
  else if matchFindPattern command then
    (false, Option.some "Consider using Glob tool instead of find command")
  else (true, Option.none)

/-- One configured hardcoded-path rule. -/
structure HPRule where
  extensions : List String
  regex : String
  message : Option String
  action : Option String

/-- Model of check_no_hardcoded_path (constraints.py lines 174-208). -/
def check_no_hardcoded_path (search : String → String → Bool)
    (content filePath : String) : List HPRule → Bool × Option String × Option String
  | [] => (true, Option.none, Option.none)
  | rule :: rest =>
    if !(rule.extensions.contains (pyLower (extOf filePath))) then
      check_no_hardcoded_path search content filePath rest
    else if rule.regex = "" then
      check_no_hardcoded_path search content filePath rest
    else if search rule.regex content then
      (false, Option.some (rule.message.getD "Hardcoded path detected"),
        Option.some (rule.action.getD "warn"))
    else check_no_hardcoded_path search content filePath rest

/-- Model of is_snake_case (constraints.py lines 211-213). -/
def is_snake_case (name : String) : Bool :=
  match name.toList with
  | [] => false
  | c :: rest =>
    isAsciiLower c && rest.all (fun d => isAsciiLower d || d.isDigit || d = '_')

/-- Model of is_all_uppercase (constraints.py lines 216-218). -/
def is_all_uppercase (name : String) : Bool :=
  match name.toList with
  | [] => false
  | c :: rest =>
    isAsciiUpper c && rest.all (fun d => isAsciiUpper d || d.isDigit || d = '_')

/-- Splitting on forward slashes, after backslashes have been
normalized; mirrors str.split which keeps empty pieces. -/
def splitSlash : List Char → List (List Char)
  | [] => [[]]
  | c :: rest =>
    if c = '/' then [] :: splitSlash rest
    else
      match splitSlash rest with
      | [] => [[c]]
      | l :: ls => (c :: l) :: ls

/-- Directory scan of check_snake_case_naming: the first directory part
that is not excluded, not dot-prefixed, not all-uppercase and not
snake_case. -/
def firstBadDir : List (List Char) → Option String
  | [] => Option.none
  | part :: rest =>
    if part.isEmpty ||
        ([".claude", ".git", ".godot", "node_modules", "__pycache__"].contains
          (String.mk part)) ||
        (match part with | '.' :: _ => true | _ => false) then
      firstBadDir rest
    else if is_all_uppercase (String.mk part) then firstBadDir rest
    else if !(is_snake_case (String.mk part)) then Option.some (String.mk part)
    else firstBadDir rest

/-- Model of check_snake_case_naming (constraints.py lines 221-273). -/
def check_snake_case_naming (filePath : String) (extensions excludeFiles : List String)
    (checkDirs : Bool) : Bool × Option String :=
  let normalized := filePath.toList.map (fun c => if c = '\\' then '/' else c)
  let parts := splitSlash normalized
  let filename := parts.getLastD []
  if excludeFiles.contains (String.mk filename) ||
      (match filename with | '.' :: _ => true | _ => false) then (true, Option.none)
  else
    let fnStr := String.mk filename
    let name := splitextRoot fnStr
    if !(extensions.contains (pyLower (extOf fnStr))) then (true, Option.none)
    else if is_all_uppercase name then (true, Option.none)
    else if !(is_snake_case name) then
      (false, Option.some ("Filename \x27" ++ fnStr ++
        "\x27 does not follow snake_case convention"))
    else if checkDirs then
      match firstBadDir parts.dropLast with
      | Option.some p =>
          (false, Option.some ("Directory name \x27" ++ p ++
            "\x27 does not follow snake_case convention"))
      | Option.none => (true, Option.none)
    else (true, Option.none)

/-- Configuration block for line_limit. -/
structure LineLimitCfg where
  enabled : Bool := false
  action : Option String := Option.none
  threshold : Option Int := Option.none

/-- Configuration block for no_tabs. -/
structure NoTabsCfg where
  enabled : Bool := false
  action : Option String := Option.none
  extensions : Option (List String) := Option.none

/-- Configuration block for no_hardcoded_path. -/
structure HardPathCfg where
  enabled : Bool := false
  rules : List HPRule := []

/-- Configuration block for snake_case_naming. -/
structure SnakeCfg where
  enabled : Bool := false
  action : Option String := Option.none
  extensions : Option (List String) := Option.none
  exclude_files : Option (List String) := Option.none
  check_dirs : Option Bool := Option.none

/-- Configuration block for no_backslash_path. -/
structure BackslashCfg where
  enabled : Bool := false
  action : Option String := Option.none

/-- Configuration block for no_powershell. -/
structure PowershellCfg where
  enabled : Bool := false
  action : Option String := Option.none
  patterns : Option (List String) := Option.none
  check_dot_backslash : Option Bool := Option.none

/-- Configuration block for no_bash_file_ops. -/
structure BashOpsCfg where
  enabled : Bool := false
  action : Option String := Option.none

/-- The constraints configuration block. -/
structure ConstraintsConfig where
  enabled : Bool := false
  line_limit : LineLimitCfg := {}
  no_tabs : NoTabsCfg := {}
  no_hardcoded_path : HardPathCfg := {}
  snake_case_naming : SnakeCfg := {}
  no_backslash_path : BackslashCfg := {}
  no_powershell : PowershellCfg := {}
  no_bash_file_ops : BashOpsCfg := {}

/-- Default file extensions of the no_tabs rule. -/
def defaultNoTabsExts : List String :=
  [".gd", ".py", ".cpp", ".h", ".hpp", ".tscn", ".tres"]

/-- Default file extensions of the snake_case_naming rule. -/
def defaultSnakeExts : List String :=
  [".gd", ".tscn", ".tres", ".py", ".cpp", ".h", ".hpp"]

/-- Default excluded filenames of the snake_case_naming rule. -/
def defaultSnakeExcluded : List String :=
  ["CLAUDE.md", "README.md", "CHANGELOG.md", "LICENSE"]

/-- Content examined by the content-based rules: new_string, falling
back to content, and only for the edit and write tools. -/
def contentFor (toolName : String) (ti : ToolInput) : String :=
  if toolName == "Edit" || toolName == "Write" then
    pyOrStr ti.new_string (ti.content.getD "")
  else ""

/-- File path examined by the content-based rules. -/
def filePathFor (toolName : String) (ti : ToolInput) : String :=
  if toolName == "Edit" || toolName == "Write" then ti.file_path.getD "" else ""

/-- Command examined by the shell rules. -/
def commandFor (toolName : String) (ti : ToolInput) : String :=
  if toolName == "Bash" then ti.command.getD "" else ""

/-- Outcome of the line_limit block of check_constraints: the message
and action when the enabled rule fails, none otherwise. -/
def gateLineLimit (toolName : String) (ti : ToolInput) (cfg : ConstraintsConfig) :
    Option (Option String × String) :=
  if cfg.line_limit.enabled && (toolName == "Edit" || toolName == "Write") &&
      contentFor toolName ti != "" then
    let r := check_line_limit (contentFor toolName ti) (cfg.line_limit.threshold.getD 100)
    if r.1 then Option.none else Option.some (r.2, cfg.line_limit.action.getD "warn")
  else Option.none

/-- Outcome of the no_tabs block of check_constraints. -/
def gateNoTabs (toolName : String) (ti : ToolInput) (cfg : ConstraintsConfig) :
    Option (Option String × String) :=
  if cfg.no_tabs.enabled && (toolName == "Edit" || toolName == "Write") &&
      contentFor toolName ti != "" then
    let r := check_no_tabs (contentFor toolName ti) (filePathFor toolName ti)
      (cfg.no_tabs.extensions.getD defaultNoTabsExts)
    if r.1 then Option.none else Option.some (r.2, cfg.no_tabs.action.getD "block")
  else Option.none

/-- Outcome of the no_hardcoded_path block of check_constraints. -/
def gateHardPath (search : String → String → Bool) (toolName : String) (ti : ToolInput)
    (cfg : ConstraintsConfig) : Option (Option String × String) :=
  if cfg.no_hardcoded_path.enabled && (toolName == "Edit" || toolName == "Write") &&
      contentFor toolName ti != "" then
    let r := check_no_hardcoded_path search (contentFor toolName ti)
      (filePathFor toolName ti) cfg.no_hardcoded_path.rules
    if r.1 then Option.none else Option.some (r.2.1, r.2.2.getD "warn")
  else Option.none

/-- Outcome of the snake_case_naming block of check_constraints. -/
def gateSnake (toolName : String) (ti : ToolInput) (cfg : ConstraintsConfig) :
    Option (Option String × String) :=
  if cfg.snake_case_naming.enabled && toolName == "Write" &&
      filePathFor toolName ti != "" then
    let r := check_snake_case_naming (filePathFor toolName ti)
      (cfg.snake_case_naming.extensions.getD defaultSnakeExts)
      (cfg.snake_case_naming.exclude_files.getD defaultSnakeExcluded)
      (cfg.snake_case_naming.check_dirs.getD true)
    if r.1 then Option.none else Option.some (r.2, cfg.snake_case_naming.action.getD "block")
  else Option.none

/-- Outcome of the no_backslash_path block of check_constraints. -/
def gateBackslash (toolName : String) (ti : ToolInput) (cfg : ConstraintsConfig) :
    Option (Option String × String) :=
  if cfg.no_backslash_path.enabled && toolName == "Bash" &&
      commandFor toolName ti != "" then
    let r := check_no_backslash_path (commandFor toolName ti)
    if r.1 then Option.none else Option.some (r.2, cfg.no_backslash_path.action.getD "warn")
  else Option.none

/-- Outcome of the no_powershell block of check_constraints. -/
def gatePowershell (search : String → String → Bool) (toolName : String) (ti : ToolInput)
    (cfg : ConstraintsConfig) : Option (Option String × String) :=
  if cfg.no_powershell.enabled && toolName == "Bash" && commandFor toolName ti != "" then
    let r := check_no_powershell search (cfg.no_powershell.patterns.getD defaultPsPatterns)
      (cfg.no_powershell.check_dot_backslash.getD true) (commandFor toolName ti)
    if r.1 then Option.none else Option.some (r.2, cfg.no_powershell.action.getD "block")
  else Option.none

/-- Outcome of the no_bash_file_ops block of check_constraints. -/
def gateBashOps (toolName : String) (ti : ToolInput) (cfg : ConstraintsConfig) :
    Option (Option String × String) :=
  if cfg.no_bash_file_ops.enabled && toolName == "Bash" && commandFor toolName ti != "" then
    let r := check_no_bash_file_ops (commandFor toolName ti)
    if r.1 then Option.none else Option.some (r.2, cfg.no_bash_file_ops.action.getD "warn")
  else Option.none

/-- Model of check_constraints (constraints.py lines 276-380): the rule
blocks are evaluated in declaration order and the first failing enabled
block returns immediately. -/
def check_constraints (search : String → String → Bool) (toolName : String)
    (ti : ToolInput) (cfg : ConstraintsConfig) :
    Bool × Option String × Option String :=
  if !cfg.enabled then (true, Option.none, Option.none)
  else
    match gateLineLimit toolName ti cfg with
    | Option.some (m, a) => (false, m, Option.some a)
    | Option.none =>
      match gateNoTabs toolName ti cfg with
      | Option.some (m, a) => (false, m, Option.some a)
      | Option.none =>
        match gateHardPath search toolName ti cfg with
        | Option.some (m, a) => (false, m, Option.some a)
        | Option.none =>
          match gateSnake toolName ti cfg with
          | Option.some (m, a) => (false, m, Option.some a)
          | Option.none =>
            match gateBackslash toolName ti cfg with
            | Option.some (m, a) => (false, m, Option.some a)
            | Option.none =>
              match gatePowershell search toolName ti cfg with
              | Option.some (m, a) => (false, m, Option.some a)
              | Option.none =>
                match gateBashOps toolName ti cfg with
                | Option.some (m, a) => (false, m, Option.some a)
                | Option.none => (true, Option.none, Option.none)

/-- The declaration-order list of rule outcomes. -/
def ruleOutcomes (search : String → String → Bool) (toolName : String) (ti : ToolInput)
    (cfg : ConstraintsConfig) : List (Option (Option String × String)) :=
  [gateLineLimit toolName ti cfg, gateNoTabs toolName ti cfg,
   gateHardPath search toolName ti cfg, gateSnake toolName ti cfg,
   gateBackslash toolName ti cfg, gatePowershell search toolName ti cfg,
   gateBashOps toolName ti cfg]

/-- First defined element of a list of optional values. -/
def firstSome {α : Type} : List (Option α) → Option α
  | [] => Option.none
  | o :: rest =>
    match o with
    | Option.some a => Option.some a
    | Option.none => firstSome rest

/-- Model of format_constraint_message (constraints.py lines 383-391). -/
def format_constraint_message (message action : String) : String :=
  if action = "block" then "[BLOCK] " ++ message
  else if action = "warn" then "[WARN] " ++ message
  else "[REMIND] " ++ message

/-- JSON fields of the PreToolUse deny output emitted by output_error. -/
structure PreDenyOutput where
  hookEventName : String
  permissionDecision : String
  permissionDecisionReason : String
deriving DecidableEq

/-- Effect of the pre-hook constraint section of focus_hook.main. -/
inductive GateResult where
  | deny (output : PreDenyOutput) (exitCode : Nat)
  | annotate (message : String)
  | proceed
deriving DecidableEq

/-- Model of the constraint section of focus_hook.main (lines 827-846):
a failing check with a message and action block emits a PreToolUse deny
decision and exits with code 1; any other failing action only annotates;
a passing check proceeds. -/
def preToolConstraintGate (search : String → String → Bool) (toolName : String)
    (ti : ToolInput) (cfg : ConstraintsConfig) : GateResult :=
  match check_constraints search toolName ti cfg with
  | (true, _, _) => GateResult.proceed
  | (false, m?, a?) =>
    match m? with
    | Option.none => GateResult.proceed
    | Option.some m =>
      let a := a?.getD ""
      if a = "block" then
        GateResult.deny ⟨"PreToolUse", "deny", format_constraint_message m a⟩ 1
      else GateResult.annotate (format_constraint_message m a)

theorem check_constraints_first (search : String → String → Bool) (toolName : String)
    (ti : ToolInput) (cfg : ConstraintsConfig) (he : cfg.enabled = true) :
    check_constraints search toolName ti cfg =
      (match firstSome (ruleOutcomes search toolName ti cfg) with
        | Option.some (m, a) => (false, m, Option.some a)
        | Option.none => (true, Option.none, Option.none)) := by
  simp only [check_constraints, ruleOutcomes, he, Bool.not_true, Bool.false_eq_true,
    if_false]
  cases gateLineLimit toolName ti cfg with
  | some v => rcases v with ⟨m, a⟩; rfl
  | none =>
    cases gateNoTabs toolName ti cfg with
    | some v => rcases v with ⟨m, a⟩; rfl
    | none =>
      cases gateHardPath search toolName ti cfg with
      | some v => rcases v with ⟨m, a⟩; rfl
      | none =>
        cases gateSnake toolName ti cfg with
        | some v => rcases v with ⟨m, a⟩; rfl
        | none =>
          cases gateBackslash toolName ti cfg with
          | some v => rcases v with ⟨m, a⟩; rfl
          | none =>
            cases gatePowershell search toolName ti cfg with
            | some v => rcases v with ⟨m, a⟩; rfl
            | none =>
              cases gateBashOps toolName ti cfg with
              | some v => rcases v with ⟨m, a⟩; rfl
              | none => rfl

/-- Constraint configuration of the end-to-end example: only no_tabs is
enabled, with action block and the default extensions. -/
def exampleCfg : ConstraintsConfig :=
  { enabled := true,
    no_tabs := { enabled := true, action := Option.some "block" } }

/-- Edit of a python file whose new content contains a tab character. -/
def exampleTabInput : ToolInput :=
  ⟨Option.some "a.py", Option.none, Option.none, Option.some "x\ty", Option.none⟩

/-- The same edit against a text file, whose extension the rule does not
cover. -/
def exampleTxtInput : ToolInput :=
  ⟨Option.some "a.txt", Option.none, Option.none, Option.some "x\ty", Option.none⟩

/-- C7: with constraints enabled, check_constraints equals the first
failing outcome of the rule blocks taken in declaration order
(line_limit, no_tabs, no_hardcoded_path, snake_case_naming,
no_backslash_path, no_powershell, no_bash_file_ops), short-circuiting
the rest; a failing rule whose action is block makes the hook emit a
PreToolUse deny decision and exit with code 1, while warn and remind
only annotate; and concretely, a config enabling no_tabs with action
block denies an edit of a python file whose content holds a tab, while
the same edit of a text file proceeds. -/
theorem C7_constraints_order_and_gate (search : String → String → Bool)
    (toolName : String) (ti : ToolInput) (cfg : ConstraintsConfig)
    (he : cfg.enabled = true) :
    check_constraints search toolName ti cfg =
      (match firstSome (ruleOutcomes search toolName ti cfg) with
        | Option.some (m, a) => (false, m, Option.some a)
        | Option.none => (true, Option.none, Option.none)) ∧
    (∀ m a, check_constraints search toolName ti cfg =
        (false, Option.some m, Option.some a) →
      (a = "block" →
        preToolConstraintGate search toolName ti cfg =
          GateResult.deny ⟨"PreToolUse", "deny", "[BLOCK] " ++ m⟩ 1) ∧
      (a = "warn" →
        preToolConstraintGate search toolName ti cfg =
          GateResult.annotate ("[WARN] " ++ m)) ∧
      (a = "remind" →
        preToolConstraintGate search toolName ti cfg =
          GateResult.annotate ("[REMIND] " ++ m))) ∧
    ((check_constraints search toolName ti cfg).1 = true →
      preToolConstraintGate search toolName ti cfg = GateResult.proceed) ∧
    preToolConstraintGate (fun _ _ => false) "Edit" exampleTabInput exampleCfg =
      GateResult.deny ⟨"PreToolUse", "deny",
        "[BLOCK] Tab characters detected, use spaces for indentation"⟩ 1 ∧
    preToolConstraintGate (fun _ _ => false) "Edit" exampleTxtInput exampleCfg =
      GateResult.proceed := by
  refine ⟨check_constraints_first search toolName ti cfg he, ?_, ?_, rfl, rfl⟩
  · intro m a h
    refine ⟨?_, ?_, ?_⟩
    · intro ha
      subst ha
      simp [preToolConstraintGate, h, format_constraint_message]
    · intro ha
      subst ha
      simp [preToolConstraintGate, h, format_constraint_message]
    · intro ha
      subst ha
      simp [preToolConstraintGate, h, format_constraint_message]
  · intro h
    rcases hcc : check_constraints search toolName ti cfg with ⟨b, m?, a?⟩
    rw [hcc] at h
    simp only at h
    subst h
    simp [preToolConstraintGate, hcc]

theorem C7_constraints_order_and_gate_witness :
    preToolConstraintGate (fun _ _ => false) "Edit" exampleTabInput exampleCfg =
      GateResult.deny ⟨"PreToolUse", "deny",
        "[BLOCK] Tab characters detected, use spaces for indentation"⟩ 1 :=
  (C7_constraints_order_and_gate (fun _ _ => false) "Edit" exampleTabInput exampleCfg
    rfl).2.2.2.1

end Focus
